import Mathlib

/-!
Verification development for the NuttX fragment: the uIP device-driver
interface contract (uip-arch.h) and the lm32 interrupt decode stub
(lm32_decodeirq.c).

The repository material contains only the declarations and documented
contracts of the uIP functions (uip-arch.h); their bodies live outside the
provided sources.  Those operations are therefore modelled from the
specification text, as flagged in each doc comment.  lm32_decodeirq is
embedded from its source file.
-/

/-- Modelled from the spec: one step of the RFC 1071 one's-complement sum —
add two 16-bit quantities with end-around carry.  Missing source:
the body of uip_chksum (only its declaration and contract are in
uip-arch.h). -/
def onesAdd (a b : Nat) : Nat :=
  let s := a + b
  if s ≥ 65536 then s - 65535 else s

/-- Modelled from the spec: interpret a byte sequence as consecutive
big-endian 16-bit words; an odd final byte is the high byte of a
zero-padded word. -/
def words16 : List Nat → List Nat
  | [] => []
  | [b] => [b * 256]
  | b1 :: b2 :: rest => (b1 * 256 + b2) :: words16 rest

/-- Modelled from the spec: fold the one's-complement sum with end-around
carry over a word list, starting from an accumulator. -/
def chksumAcc (acc : Nat) : List Nat → Nat
  | [] => acc
  | w :: ws => chksumAcc (onesAdd acc w) ws

/-- Modelled from the spec: uip_chksum — the Internet checksum is the one's
complement of the one's-complement sum of all 16-bit words in the buffer
(RFC 1071).  The body of uip_chksum is not in the provided sources; only
its declaration and contract are (uip-arch.h). -/
def uip_chksum (bytes : List Nat) : Nat :=
  65535 - chksumAcc 0 (words16 bytes)

/-- Modelled from the spec: uip_ipchksum — the IP header checksum is the
Internet checksum of the 20 bytes of the IP header at the start of the
packet buffer.  The body of uip_ipchksum is not in the provided sources. -/
def uip_ipchksum (packet : List Nat) : Nat :=
  uip_chksum (packet.take 20)

/-- Streaming checksum accumulator state: the running one's-complement sum
and an optional pending high byte when an odd number of bytes has been fed
so far.  Modelled from the spec's streaming-accumulator description of the
split pseudo-header/payload checksum path. -/
structure ChkState where
  sum : Nat
  pending : Option Nat
deriving Repr, DecidableEq

/-- Initial streaming checksum state. -/
def chkInit : ChkState := ⟨0, none⟩

/-- Feed one byte into the streaming checksum state. -/
def chkFeed (s : ChkState) (b : Nat) : ChkState :=
  match s.pending with
  | none => ⟨s.sum, some b⟩
  | some hi => ⟨onesAdd s.sum (hi * 256 + b), none⟩

/-- Feed a whole byte region into the streaming checksum state. -/
def chkFeedBytes (s : ChkState) (bytes : List Nat) : ChkState :=
  bytes.foldl chkFeed s

/-- Final one's-complement sum of a streaming state: a trailing pending
byte is the high byte of a zero-padded word. -/
def chkFinalSum (s : ChkState) : Nat :=
  match s.pending with
  | none => s.sum
  | some hi => onesAdd s.sum (hi * 256)

/-- Modelled from the spec: the two-region accumulation path of
uip_tcpchksum / uip_udpchksum — the checksum over the headers in d_buf and
the payload at d_appdata is computed by carrying the intermediate
accumulator across the two physically separate regions.  The bodies of
uip_tcpchksum / uip_udpchksum are not in the provided sources. -/
def uip_tcpchksum_split (hdr payload : List Nat) : Nat :=
  65535 - chkFinalSum (chkFeedBytes (chkFeedBytes chkInit hdr) payload)

/-- Value of a 4-byte array in network byte order (big endian). -/
def be32toNat (bs : List Nat) : Nat :=
  bs.foldl (fun acc b => acc * 256 + b) 0

/-- The 4 network-byte-order (big endian) bytes of a 32-bit value. -/
def natToBe32 (n : Nat) : List Nat :=
  [n / 16777216 % 256, n / 65536 % 256, n / 256 % 256, n % 256]

/-- Modelled from the spec: uip_add32 — add a 16-bit host-order value to a
32-bit integer held as a 4-byte network-byte-order array, propagating the
carry across the full 32-bit value; the result is the 4-byte
network-byte-order uip_acc32.  The body of uip_add32 is not in the
provided sources; only its declaration and contract are (uip-arch.h). -/
def uip_add32 (op32 : List Nat) (op16 : Nat) : List Nat :=
  natToBe32 ((be32toNat op32 + op16) % 4294967296)

/-- Event flag values passed to uip_interrupt (uip-arch.h). -/
def UIP_DATA : Nat := 1

/-- Timer event flag (uip-arch.h). -/
def UIP_TIMER : Nat := 2

/-- Poll-request event flag (uip-arch.h). -/
def UIP_POLL_REQUEST : Nat := 3

/-- UDP-send event flag (uip-arch.h). -/
def UIP_UDP_SEND_CONN : Nat := 4

/-- The uip_driver_s structure of uip-arch.h: the shared packet buffer
d_buf, the application-data and send-data offsets into it (modelled as
integer offsets per the spec's data-model note), the valid packet length
d_len and the application send length d_sndlen. -/
structure uip_driver_s where
  d_buf : List Nat
  d_appdata : Nat
  d_snddata : Nat
  d_len : Nat
  d_sndlen : Nat
deriving Repr, DecidableEq

/-- Modelled from the spec: uip_interrupt — the coordinator entry point
called with the buffer and an event flag.  The protocol engine behind it
is out of scope and is passed in as a function from the event flag and the
inbound bytes to the outbound reply bytes ([] meaning nothing to send).
On return the reply (if any) sits at the front of d_buf and d_len is its
length; an inbound-data event with d_len == 0 on entry is a caller error
treated as a no-op.  The body of uip_interrupt is not in the provided
sources; only its declaration and contract are (uip-arch.h). -/
def uip_interrupt (engine : Nat → List Nat → List Nat)
    (dev : uip_driver_s) (flag : Nat) : uip_driver_s :=
  if flag = UIP_DATA ∧ dev.d_len = 0 then dev
  else
    let reply := engine flag (dev.d_buf.take dev.d_len)
    { dev with d_buf := reply ++ dev.d_buf.drop reply.length,
               d_len := reply.length }

/-- The uip_input macro of uip-arch.h line 207: process an incoming packet
by invoking uip_interrupt with the UIP_DATA flag. -/
def uip_input (engine : Nat → List Nat → List Nat)
    (dev : uip_driver_s) : uip_driver_s :=
  uip_interrupt engine dev UIP_DATA

/-- Modelled from the spec: uip_tcppoll — periodic processing for the TCP
connection with the given number, callable for every connection whether
open or closed.  The protocol engine is out of scope and is passed in as a
function from the connection number to the outbound packet bytes ([]
meaning nothing pending).  The body of uip_tcppoll is not in the provided
sources; only its declaration and contract are (uip-arch.h). -/
def uip_tcppoll (pollEngine : Nat → List Nat)
    (dev : uip_driver_s) (conn : Nat) : uip_driver_s :=
  let out := pollEngine conn
  { dev with d_buf := out ++ dev.d_buf.drop out.length,
             d_len := out.length }

/-- Modelled from the spec: uip_udppoll — periodic processing for the UDP
connection with the given number; essentially the same as uip_tcppoll.
The body of uip_udppoll is not in the provided sources. -/
def uip_udppoll (pollEngine : Nat → List Nat)
    (dev : uip_driver_s) (conn : Nat) : uip_driver_s :=
  let out := pollEngine conn
  { dev with d_buf := out ++ dev.d_buf.drop out.length,
             d_len := out.length }

/-- The dispatch loop of lm32_decodeirq (lm32_decodeirq.c lines 80-100):
for irq from 0 while irq < MISOC_NINTERRUPTS and the remaining interrupt
status is nonzero, dispatch each pending bit through lm32_doirq and clear
it from the status copy.  The obvious slips of the source (instat for
intstat, i++ for irq++) are repaired; the register save area and
lm32_doirq are abstract. -/
def decodeLoop {R : Type} (nints : Nat) (doirq : Nat → R → R) :
    Nat → Nat → R → R
  | irq, instat, regs =>
    if h : irq < nints ∧ instat ≠ 0 then
      let bit := 2 ^ irq
      if instat / bit % 2 = 1 then
        decodeLoop nints doirq (irq + 1) (instat - bit) (doirq irq regs)
      else
        decodeLoop nints doirq (irq + 1) instat regs
    else
      regs
termination_by irq _ _ => nints - irq
decreasing_by all_goals omega

/-- lm32_decodeirq (lm32_decodeirq.c lines 64-109): reads the pending
interrupt status — stubbed to the constant 0 under a missing-logic
warning — then runs the decode-and-dispatch loop and returns the final
register save area. -/
def lm32_decodeirq {R : Type} (nints : Nat) (doirq : Nat → R → R)
    (regs : R) : R :=
  let intstat : Nat := 0
  decodeLoop nints doirq 0 intstat regs

/-- Two-step structural induction on lists, matching the recursion pattern
of words16 and of byte-pair feeding. -/
theorem List.twoStepInduction {α : Type} {motive : List α → Prop}
    (h0 : motive []) (h1 : ∀ b, motive [b])
    (h2 : ∀ b1 b2 rest, motive rest → motive (b1 :: b2 :: rest)) :
    ∀ l, motive l
  | [] => h0
  | [b] => h1 b
  | b1 :: b2 :: rest => h2 b1 b2 rest (List.twoStepInduction h0 h1 h2 rest)

theorem onesAdd_le (a b : Nat) (ha : a ≤ 65535) (hb : b ≤ 65535) :
    onesAdd a b ≤ 65535 := by
  unfold onesAdd; dsimp only; split <;> omega

theorem onesAdd_mod (a b : Nat) :
    onesAdd a b % 65535 = (a + b) % 65535 := by
  unfold onesAdd; dsimp only; split <;> omega

theorem onesAdd_eq_zero {a b : Nat} (h : onesAdd a b = 0) :
    a = 0 ∧ b = 0 := by
  unfold onesAdd at h; dsimp only at h
  split at h <;> omega

theorem chksumAcc_le (ws : List Nat) (acc : Nat) (hacc : acc ≤ 65535)
    (hws : ∀ w ∈ ws, w ≤ 65535) : chksumAcc acc ws ≤ 65535 := by
  induction ws generalizing acc with
  | nil => exact hacc
  | cons w ws ih =>
      exact ih (onesAdd acc w)
        (onesAdd_le acc w hacc (hws w (List.mem_cons_self w ws)))
        (fun u hu => hws u (List.mem_cons_of_mem w hu))

theorem chksumAcc_mod (ws : List Nat) (acc : Nat) :
    chksumAcc acc ws % 65535 = (acc + ws.sum) % 65535 := by
  induction ws generalizing acc with
  | nil => simp [chksumAcc]
  | cons w ws ih =>
      show chksumAcc (onesAdd acc w) ws % 65535 = _
      rw [ih (onesAdd acc w), List.sum_cons, Nat.add_mod,
          onesAdd_mod acc w, ← Nat.add_mod]
      omega

theorem chksumAcc_eq_zero {ws : List Nat} {acc : Nat}
    (h : chksumAcc acc ws = 0) : acc = 0 ∧ ∀ w ∈ ws, w = 0 := by
  induction ws generalizing acc with
  | nil => exact ⟨h, by simp⟩
  | cons w ws ih =>
      have h' : chksumAcc (onesAdd acc w) ws = 0 := h
      obtain ⟨hz, hall⟩ := ih h'
      obtain ⟨ha, hw⟩ := onesAdd_eq_zero hz
      exact ⟨ha, by
        intro u hu
        rcases List.mem_cons.mp hu with h1 | h2
        · exact h1 ▸ hw
        · exact hall u h2⟩

theorem words16_le (bytes : List Nat) (hb : ∀ b ∈ bytes, b < 256) :
    ∀ w ∈ words16 bytes, w ≤ 65535 := by
  induction bytes using List.twoStepInduction with
  | h0 => simp [words16]
  | h1 b =>
      intro w hw
      simp only [words16, List.mem_singleton] at hw
      have := hb b (by simp)
      omega
  | h2 b1 b2 rest ih =>
      intro w hw
      simp only [words16, List.mem_cons] at hw
      rcases hw with h | h
      · have := hb b1 (by simp)
        have := hb b2 (by simp)
        omega
      · exact ih (fun u hu => hb u (by simp [hu])) w h

theorem words16_append_even (l1 l2 : List Nat) (h : l1.length % 2 = 0) :
    words16 (l1 ++ l2) = words16 l1 ++ words16 l2 := by
  induction l1 using List.twoStepInduction with
  | h0 => simp [words16]
  | h1 b => simp at h
  | h2 b1 b2 rest ih =>
      simp only [List.length_cons] at h
      simp only [List.cons_append, words16, List.cons.injEq, true_and]
      exact ih (by omega)

theorem chksumAcc_append (ws1 ws2 : List Nat) (acc : Nat) :
    chksumAcc acc (ws1 ++ ws2) = chksumAcc (chksumAcc acc ws1) ws2 := by
  induction ws1 generalizing acc with
  | nil => rfl
  | cons w ws ih => exact ih (onesAdd acc w)

theorem chkFeedBytes_append (s : ChkState) (xs ys : List Nat) :
    chkFeedBytes s (xs ++ ys) = chkFeedBytes (chkFeedBytes s xs) ys := by
  simp [chkFeedBytes, List.foldl_append]

theorem chkFeedBytes_words (bytes : List Nat) (acc : Nat) :
    chkFinalSum (chkFeedBytes ⟨acc, none⟩ bytes) =
      chksumAcc acc (words16 bytes) := by
  induction bytes using List.twoStepInduction generalizing acc with
  | h0 => rfl
  | h1 b => rfl
  | h2 b1 b2 rest ih =>
      show chkFinalSum (chkFeedBytes
        (chkFeed (chkFeed ⟨acc, none⟩ b1) b2) rest) = _
      simp only [chkFeed, words16, chksumAcc]
      exact ih (onesAdd acc (b1 * 256 + b2))

theorem chksumAcc_zeros (ws : List Nat) (h : ∀ w ∈ ws, w = 0) :
    chksumAcc 0 ws = 0 := by
  induction ws with
  | nil => rfl
  | cons w ws ih =>
      have hw : w = 0 := h w (List.mem_cons_self w ws)
      have : onesAdd 0 w = 0 := by simp [onesAdd, hw]
      show chksumAcc (onesAdd 0 w) ws = 0
      rw [this]
      exact ih (fun u hu => h u (List.mem_cons_of_mem w hu))

theorem words16_zeros (bytes : List Nat) (h : ∀ b ∈ bytes, b = 0) :
    ∀ w ∈ words16 bytes, w = 0 := by
  induction bytes using List.twoStepInduction with
  | h0 => simp [words16]
  | h1 b =>
      intro w hw
      simp only [words16, List.mem_singleton] at hw
      have := h b (by simp)
      omega
  | h2 b1 b2 rest ih =>
      intro w hw
      simp only [words16, List.mem_cons] at hw
      rcases hw with h1 | h2'
      · have := h b1 (by simp)
        have := h b2 (by simp)
        omega
      · exact ih (fun u hu => h u (by simp [hu])) w h2'

theorem words16_pad_odd (bytes : List Nat) (h : bytes.length % 2 = 1) :
    words16 (bytes ++ [0]) = words16 bytes := by
  induction bytes using List.twoStepInduction with
  | h0 => simp at h
  | h1 b => simp [words16]
  | h2 b1 b2 rest ih =>
      simp only [List.length_cons] at h
      simp only [List.cons_append, words16, List.cons.injEq, true_and]
      exact ih (by omega)

/-- Demonstration engine producing a fixed one-byte reply, used only to
instantiate contract theorems at concrete inputs. -/
def demoEngine : Nat → List Nat → List Nat := fun _ _ => [9]

/-- Demonstration driver state with a 3-byte inbound packet. -/
def demoDev : uip_driver_s := ⟨[1, 2, 3], 0, 0, 3, 0⟩

/-- Demonstration driver state with an empty buffer. -/
def demoDev0 : uip_driver_s := ⟨[], 0, 0, 0, 0⟩

/-- C1: for every invocation of ProcessInbound (uip_input) on a buffer
holding an inbound frame, on return d_len > 0 if and only if an outbound
reply packet is present at the front of the buffer for the driver to
transmit, and d_len == 0 means no packet is to be sent out. -/
theorem uip_input_reply_iff
    (engine : Nat → List Nat → List Nat) (dev : uip_driver_s)
    (h : 0 < dev.d_len) :
    ((uip_input engine dev).d_len > 0 ↔
      engine UIP_DATA (dev.d_buf.take dev.d_len) ≠ []) ∧
    (uip_input engine dev).d_buf.take (uip_input engine dev).d_len =
      engine UIP_DATA (dev.d_buf.take dev.d_len) := by
  have hcond : ¬(UIP_DATA = UIP_DATA ∧ dev.d_len = 0) := by
    intro hc; omega
  unfold uip_input uip_interrupt
  rw [if_neg hcond]
  refine ⟨?_, ?_⟩
  · simpa using List.length_pos (l := engine UIP_DATA (dev.d_buf.take dev.d_len))
  · exact List.take_left (engine UIP_DATA (dev.d_buf.take dev.d_len))
      (dev.d_buf.drop (engine UIP_DATA (dev.d_buf.take dev.d_len)).length)

/-- Witness for C1 at a concrete engine and driver state. -/
theorem uip_input_reply_iff_witness :
    ((uip_input demoEngine demoDev).d_len > 0 ↔
      demoEngine UIP_DATA (demoDev.d_buf.take demoDev.d_len) ≠ []) ∧
    (uip_input demoEngine demoDev).d_buf.take
        (uip_input demoEngine demoDev).d_len =
      demoEngine UIP_DATA (demoDev.d_buf.take demoDev.d_len) :=
  uip_input_reply_iff demoEngine demoDev (by decide)

/-- C6: ProcessInbound invoked with d_len == 0 on entry is a precondition
violation treated as a no-op: the driver state is returned unchanged, so
no output is produced and nothing is mutated. -/
theorem uip_input_zero_len_noop
    (engine : Nat → List Nat → List Nat) (dev : uip_driver_s)
    (h : dev.d_len = 0) : uip_input engine dev = dev := by
  unfold uip_input uip_interrupt
  rw [if_pos ⟨rfl, h⟩]

/-- Witness for C6 at a concrete engine and empty driver state. -/
theorem uip_input_zero_len_noop_witness :
    uip_input demoEngine demoDev0 = demoDev0 :=
  uip_input_zero_len_noop demoEngine demoDev0 (by decide)

/-- C7: PollConnection (uip_tcppoll / uip_udppoll) is invocable for every
connection index with no state precondition (open or closed), and each
single call leaves exactly one outbound packet description in the shared
buffer: the front d_len bytes of d_buf are the poll engine's single
outbound packet and d_len is its length. -/
theorem uip_poll_single_packet
    (pollEngine : Nat → List Nat) (dev : uip_driver_s) (conn : Nat) :
    ((uip_tcppoll pollEngine dev conn).d_buf.take
        (uip_tcppoll pollEngine dev conn).d_len = pollEngine conn ∧
      (uip_tcppoll pollEngine dev conn).d_len =
        (pollEngine conn).length) ∧
    ((uip_udppoll pollEngine dev conn).d_buf.take
        (uip_udppoll pollEngine dev conn).d_len = pollEngine conn ∧
      (uip_udppoll pollEngine dev conn).d_len =
        (pollEngine conn).length) := by
  unfold uip_tcppoll uip_udppoll
  refine ⟨⟨?_, rfl⟩, ⟨?_, rfl⟩⟩ <;>
    exact List.take_left (pollEngine conn)
      (dev.d_buf.drop (pollEngine conn).length)

/-- C8: PollConnection for a connection index with no pending output
returns with d_len == 0 and mutates nothing else: the buffer contents and
the unrelated fields are exactly those of the input state. -/
theorem uip_poll_no_pending_frame
    (pollEngine : Nat → List Nat) (dev : uip_driver_s) (conn : Nat)
    (h : pollEngine conn = []) :
    uip_tcppoll pollEngine dev conn = { dev with d_len := 0 } ∧
    uip_udppoll pollEngine dev conn = { dev with d_len := 0 } := by
  unfold uip_tcppoll uip_udppoll
  rw [h]
  simp

/-- Witness for C8 at a concrete idle poll engine and driver state. -/
theorem uip_poll_no_pending_frame_witness :
    uip_tcppoll (fun _ => []) demoDev 0 = { demoDev with d_len := 0 } ∧
    uip_udppoll (fun _ => []) demoDev 0 = { demoDev with d_len := 0 } :=
  uip_poll_no_pending_frame (fun _ => []) demoDev 0 rfl

/-- C9: no entry point of the coordinator returns an error code — each is
a total function — and whenever the protocol engine declines to produce
output for an event (e.g. a malformed or truncated frame), uip_interrupt
terminates with d_len == 0 and every other field of the driver state
unchanged: the packet is silently dropped, nothing faults and no state is
corrupted. -/
theorem uip_interrupt_drop_semantics
    (engine : Nat → List Nat → List Nat) (dev : uip_driver_s) (flag : Nat)
    (h : engine flag (dev.d_buf.take dev.d_len) = []) :
    (uip_interrupt engine dev flag).d_len = 0 ∧
    (uip_interrupt engine dev flag).d_buf = dev.d_buf ∧
    (uip_interrupt engine dev flag).d_appdata = dev.d_appdata ∧
    (uip_interrupt engine dev flag).d_snddata = dev.d_snddata ∧
    (uip_interrupt engine dev flag).d_sndlen = dev.d_sndlen := by
  unfold uip_interrupt
  split
  · rename_i hc
    exact ⟨hc.2, rfl, rfl, rfl, rfl⟩
  · rw [h]
    simp

/-- Witness for C9 at a concrete dropping engine and driver state. -/
theorem uip_interrupt_drop_semantics_witness :
    (uip_interrupt (fun _ _ => []) demoDev UIP_TIMER).d_len = 0 ∧
    (uip_interrupt (fun _ _ => []) demoDev UIP_TIMER).d_buf =
      demoDev.d_buf ∧
    (uip_interrupt (fun _ _ => []) demoDev UIP_TIMER).d_appdata =
      demoDev.d_appdata ∧
    (uip_interrupt (fun _ _ => []) demoDev UIP_TIMER).d_snddata =
      demoDev.d_snddata ∧
    (uip_interrupt (fun _ _ => []) demoDev UIP_TIMER).d_sndlen =
      demoDev.d_sndlen :=
  uip_interrupt_drop_semantics (fun _ _ => []) demoDev UIP_TIMER rfl

/-- C10: lm32_decodeirq as written dispatches no interrupt and returns the
register save area unchanged, for every interrupt count and every dispatch
function, because the interrupt status it reads is stubbed to the constant
0 and the dispatch loop body is therefore unreachable. -/
theorem lm32_decodeirq_no_dispatch (R : Type) (nints : Nat)
    (doirq : Nat → R → R) (regs : R) :
    lm32_decodeirq nints doirq regs = regs := by
  unfold lm32_decodeirq
  rw [decodeLoop]
  simp

/-- C2: Checksum16 (uip_chksum) computes the RFC 1071 Internet checksum
over the bytes taken as consecutive big-endian 16-bit words: a buffer of
all zero bytes (of any length, even or odd) checksums to 0xFFFF, and an
odd final byte behaves exactly as the high byte of a zero-padded 16-bit
word, so appending the virtual zero pad byte leaves the checksum
unchanged. -/
theorem uip_chksum_rfc1071 :
    (∀ n : Nat, uip_chksum (List.replicate n 0) = 65535) ∧
    (∀ bytes : List Nat, bytes.length % 2 = 1 →
      uip_chksum (bytes ++ [0]) = uip_chksum bytes) := by
  constructor
  · intro n
    unfold uip_chksum
    have hz : chksumAcc 0 (words16 (List.replicate n 0)) = 0 :=
      chksumAcc_zeros _ (words16_zeros _
        (fun b hb => List.eq_of_mem_replicate hb))
    rw [hz]
  · intro bytes h
    unfold uip_chksum
    rw [words16_pad_odd bytes h]

/-- Witness for C2 at a concrete odd-length buffer. -/
theorem uip_chksum_rfc1071_witness :
    uip_chksum ([7] ++ [0]) = uip_chksum [7] :=
  uip_chksum_rfc1071.2 [7] (by decide)

/-- C3: the TCP/UDP checksum computed by carrying the streaming
accumulator across the two physically separate regions (headers in the
packet buffer, payload at appData) equals the plain Internet checksum of
the single concatenated byte sequence, for every logical byte sequence
and every split point. -/
theorem uip_tcpchksum_split_contiguity
    (hdr payload : List Nat) :
    uip_tcpchksum_split hdr payload = uip_chksum (hdr ++ payload) := by
  unfold uip_tcpchksum_split uip_chksum chkInit
  rw [← chkFeedBytes_append, chkFeedBytes_words]

/-- C5: Add32 (uip_add32) adds a 16-bit host-order addend into a 32-bit
network-byte-order accumulator with carry propagated across the full
32-bit value: with accumulator 0 and addend 0 the result is 0, and adding
0xFFFF twice to any 32-bit accumulator matches manual 32-bit addition of
0x1FFFE, including the carry out of the low 16 bits. -/
theorem uip_add32_carry :
    uip_add32 [0, 0, 0, 0] 0 = [0, 0, 0, 0] ∧
    (∀ acc : Nat, acc < 4294967296 →
      uip_add32 (uip_add32 (natToBe32 acc) 65535) 65535 =
        natToBe32 ((acc + 131070) % 4294967296)) := by
  have hround : ∀ n : Nat, n < 4294967296 →
      be32toNat (natToBe32 n) = n := by
    intro n hn
    simp only [natToBe32, be32toNat, List.foldl]
    omega
  constructor
  · decide
  · intro acc hacc
    unfold uip_add32
    have h2 : (0 : Nat) < 4294967296 := by omega
    have e1 : be32toNat (natToBe32 acc) = acc := hround acc hacc
    have e2 : be32toNat (natToBe32 ((acc + 65535) % 4294967296)) =
        (acc + 65535) % 4294967296 := hround _ (Nat.mod_lt _ h2)
    have e3 : ((acc + 65535) % 4294967296 + 65535) % 4294967296 =
        (acc + 131070) % 4294967296 := by omega
    rw [e1, e2, e3]

/-- Witness for C5 at a concrete 32-bit accumulator value. -/
theorem uip_add32_carry_witness :
    uip_add32 (uip_add32 (natToBe32 4294901761) 65535) 65535 =
      natToBe32 ((4294901761 + 131070) % 4294967296) :=
  uip_add32_carry.2 4294901761 (by decide)

/-- Demonstration first 10 bytes of an IP header (version/IHL through
protocol), used only to instantiate the round-trip theorem. -/
def demoIpPre : List Nat :=
  [0x45, 0x00, 0x00, 0x54, 0x00, 0x00, 0x40, 0x00, 0x40, 0x01]

/-- Demonstration last 8 bytes of an IP header (source and destination
addresses), used only to instantiate the round-trip theorem. -/
def demoIpMid : List Nat :=
  [0xC0, 0xA8, 0x00, 0x01, 0xC0, 0xA8, 0x00, 0xC7]

/-- C4: IPHeaderChecksum (uip_ipchksum) satisfies the round-trip property:
for every 20-byte IP header split as 10 bytes before the checksum field,
the zeroed 2-byte checksum field, and 8 bytes after it, computing the
checksum over the zeroed header, inserting the resulting value big-endian
into the field, and recomputing over the completed header yields 0; and
uip_ipchksum returns 0 whenever the one's-complement sum it computes is
0xFFFF. -/
theorem uip_ipchksum_roundtrip :
    (∀ pre mid : List Nat, pre.length = 10 → mid.length = 8 →
      (∀ b ∈ pre, b < 256) → (∀ b ∈ mid, b < 256) →
      uip_ipchksum (pre ++
        [uip_ipchksum (pre ++ [0, 0] ++ mid) / 256,
         uip_ipchksum (pre ++ [0, 0] ++ mid) % 256] ++ mid) = 0) ∧
    (∀ p : List Nat, chksumAcc 0 (words16 (p.take 20)) = 65535 →
      uip_ipchksum p = 0) := by
  constructor
  · intro pre mid hpl hml hpb hmb
    have hWle : ∀ w ∈ words16 pre, w ≤ 65535 := words16_le pre hpb
    have hMle : ∀ w ∈ words16 mid, w ≤ 65535 := words16_le mid hmb
    have hw0 : words16 (pre ++ [0, 0] ++ mid) =
        words16 pre ++ 0 :: words16 mid := by
      rw [List.append_assoc,
          words16_append_even pre ([0, 0] ++ mid) (by omega)]
      simp [words16]
    have ht0 : (pre ++ [0, 0] ++ mid).take 20 = pre ++ [0, 0] ++ mid :=
      List.take_of_length_le (by simp [hpl, hml])
    set S := chksumAcc 0 (words16 pre ++ 0 :: words16 mid) with hSdef
    have hSle : S ≤ 65535 := by
      rw [hSdef]
      apply chksumAcc_le _ 0 (by omega)
      intro w hw
      rcases List.mem_append.mp hw with h | h
      · exact hWle w h
      · rcases List.mem_cons.mp h with h' | h'
        · omega
        · exact hMle w h'
    have hc : uip_ipchksum (pre ++ [0, 0] ++ mid) = 65535 - S := by
      unfold uip_ipchksum uip_chksum
      rw [ht0, hw0]
    set c := 65535 - S with hcdef
    rw [hc]
    have hb : c / 256 * 256 + c % 256 = c := by omega
    have hw1 : words16 (pre ++ [c / 256, c % 256] ++ mid) =
        words16 pre ++ c :: words16 mid := by
      rw [List.append_assoc,
          words16_append_even pre ([c / 256, c % 256] ++ mid) (by omega)]
      simp [words16, hb]
    have ht1 : (pre ++ [c / 256, c % 256] ++ mid).take 20 =
        pre ++ [c / 256, c % 256] ++ mid :=
      List.take_of_length_le (by simp [hpl, hml])
    unfold uip_ipchksum uip_chksum
    rw [ht1, hw1]
    set S1 := chksumAcc 0 (words16 pre ++ c :: words16 mid) with hS1def
    have hS1le : S1 ≤ 65535 := by
      rw [hS1def]
      apply chksumAcc_le _ 0 (by omega)
      intro w hw
      rcases List.mem_append.mp hw with h | h
      · exact hWle w h
      · rcases List.mem_cons.mp h with h' | h'
        · omega
        · exact hMle w h'
    have hSmod := chksumAcc_mod (words16 pre ++ 0 :: words16 mid) 0
    have hS1mod := chksumAcc_mod (words16 pre ++ c :: words16 mid) 0
    rw [List.sum_append, List.sum_cons] at hSmod hS1mod
    rw [← hSdef] at hSmod
    rw [← hS1def] at hS1mod
    by_cases hc0 : c = 0
    · have hss : S1 = S := by rw [hS1def, hSdef, hc0]
      omega
    · have hS1ne : S1 ≠ 0 := by
        rw [hS1def]
        intro h0
        obtain ⟨-, hall⟩ := chksumAcc_eq_zero h0
        exact hc0 (hall c (by simp))
      omega
  · intro p h
    unfold uip_ipchksum uip_chksum
    rw [h]

/-- Witness for C4 at a concrete ICMP-echo-style IP header. -/
theorem uip_ipchksum_roundtrip_witness :
    uip_ipchksum (demoIpPre ++
      [uip_ipchksum (demoIpPre ++ [0, 0] ++ demoIpMid) / 256,
       uip_ipchksum (demoIpPre ++ [0, 0] ++ demoIpMid) % 256] ++
      demoIpMid) = 0 :=
  uip_ipchksum_roundtrip.1 demoIpPre demoIpMid (by decide) (by decide)
    (by decide) (by decide)

example : uip_chksum [] = 65535 := by decide
example : uip_chksum [0, 0, 0, 0] = 65535 := by decide
example : uip_chksum [0x12, 0x34] = 65535 - 0x1234 := by decide
example : uip_chksum [0xFF, 0xFF, 0x00, 0x01] = 65535 - 1 := by decide
example : uip_chksum [0xAB] = 65535 - 0xAB00 := by decide
example : uip_tcpchksum_split [0x12] [0x34, 0x56] = uip_chksum [0x12, 0x34, 0x56] := by decide
